import Mathlib

/-!
Shallow embedding of `src/source/main/zettlr-virtual-directory.js`
(class `ZettlrVirtualDirectory`).

Modelling choices, all driven by the JavaScript source:

* The sidecar file `<dir>/.ztr-virtual-dir` is modelled by the state field
  `fileContent : Option Json`: `none` means the file is absent, `some j`
  means the file holds the JSON text whose parse is `j`.  `JSON.stringify`
  and `JSON.parse` are modelled as `recordsToJson` / `jsonToRecords` over
  the `Json` AST; a sidecar whose JSON does not have the record shape the
  class dynamically relies on (`elem.name`, `dir.files`, string entries)
  is mapped to a dynamic `typeError`, as the untyped accesses would raise.
* JavaScript exceptions are modelled with `Except JSError`.  Every
  operation returns the result together with the post state, because a
  thrown exception does not roll back the mutations already performed.
* `this._root` is never assigned anywhere in the class, so every read of
  it yields `undefined`; string operations (`indexOf`, `replace`) coerce
  it to the string `"undefined"`.  `isAbsolute`/`makeRelative` embed that
  behaviour literally.
* In `_refresh`, the loop body `let file = this._directory.findFile({'path':
  this._makeAbsolute(file)})` re-declares `file`, shadowing the `for (let
  file of dir.files)` loop variable; evaluating `file` in its own
  initializer is a temporal-dead-zone violation, so the first iteration
  throws `ReferenceError: Cannot access 'file' before initialization`.
  Hence a record with a non-empty `files` list makes `_refresh` throw, and
  `findFile` is unreachable; `refreshGo` embeds exactly that.
* The per-instance fields `_directory`, `_virtualDirectories`,
  `_realDirectories` and the file become the fields of `VDState`.
-/

namespace ZVD

/-- JSON values, the parse result of the sidecar file's text. -/
inductive Json where
  | str : String → Json
  | num : Int → Json
  | bool : Bool → Json
  | null : Json
  | arr : List Json → Json
  | obj : List (String × Json) → Json

/-- The JavaScript exceptions the class can raise. -/
inductive JSError where
  | typeError : String → JSError
  | referenceError : String → JSError
  | fsError : String → JSError
deriving Repr, DecidableEq

/-- A JavaScript value passed as the `name` argument of `add`
(the source guards `typeof name != 'string'`). -/
inductive JSVal where
  | str : String → JSVal
  | num : Int → JSVal
  | bool : Bool → JSVal
  | undef : JSVal
deriving Repr, DecidableEq

/-- `typeof v == 'string'`. -/
def typeofIsString : JSVal → Bool
  | .str _ => true
  | _ => false

/-- A persisted virtual-directory record: `{ 'name': ..., 'files': [...] }`. -/
structure VDRecord where
  name : String
  files : List String
deriving Repr, DecidableEq

/-- A derived-view entry pushed by `_refresh`:
`{ 'name': dir.name, 'children': [], 'hash': hash(dir.name), 'type': 'virtualdir' }`.
`α` is the type of live file objects of the parent directory. -/
structure RealDir (α : Type) where
  name : String
  children : List α
  hash : Int
  type : String

/-- The parent directory collaborator: `getPath()`, `isScope(ref)`,
`findFile({path})` (returning a live file object or null). -/
structure ParentDir (α : Type) where
  path : String
  isScope : String → Bool
  findFile : String → Option α

/-- Instance state of `ZettlrVirtualDirectory`: `this._directory`,
`this._virtualDirectories`, `this._realDirectories`, and the sidecar
file's content (`none` = file absent). -/
structure VDState (α : Type) where
  directory : ParentDir α
  virtualDirectories : List VDRecord
  realDirectories : List (RealDir α)
  fileContent : Option Json

/-- The argument object of `find(obj)`: `hash = none` models an object
without an own `hash` property; `path`/`name` model further properties
the object may carry (the source ignores them). -/
structure FindArg where
  hash : Option Int
  path : Option String
  name : Option String

/-- Modelled from the spec: the deterministic hash function over strings
from `source/common/zettlr-helpers.js` (required via
`require('../common/zettlr-helpers.js')` but not included under `src/`),
which assigns a stable synthetic identifier to each virtual directory
name.  The spec fixes only that it is a deterministic function of the
name, so any concrete deterministic function is a faithful model. -/
def hash (s : String) : Int :=
  s.data.foldl (fun a c => a * 31 + Int.ofNat c.toNat) 0

/-- `String(undefined)`: what `this._root` (never assigned, hence
`undefined`) coerces to inside `indexOf` and `replace`. -/
def jsUndef : String := "undefined"

/-- `_isAbsolute(p)`: `p.indexOf(this._root) == 0`.  Since `this._root`
is `undefined`, this tests whether `p` starts with the string
`"undefined"`. -/
def isAbsolute (p : String) : Bool :=
  jsUndef.isPrefixOf p

/-- `_makeRelative(p)`: if `_isAbsolute(p)`, `p.replace(this._root, '')`
removes the first occurrence of `"undefined"`, which under the guard is
the prefix of length 9; otherwise `p` is returned unchanged. -/
def makeRelative (p : String) : String :=
  if isAbsolute p then p.drop jsUndef.length else p

/-- `_makeAbsolute(p)`: when `p` is not "absolute" the source calls
`path.join(this._root, p)` with `this._root = undefined`, which throws
`TypeError`.  (Its only call site, in `_refresh`, is unreachable: the
temporal-dead-zone `ReferenceError` on `file` fires first.) -/
def makeAbsolute (p : String) : Except JSError String :=
  if isAbsolute p then .ok p
  else .error (.typeError "Path must be a string. Received undefined")

/-- `String.prototype.toLowerCase()`, used for the case-insensitive name
match in `add` and `remove`: character-wise lowercasing, written over the
character list so that concrete instances compute (the record names here
are ASCII; `String.toLower` is the same `Char.toLower` map). -/
def toLowerCase (s : String) : String := ⟨s.data.map Char.toLower⟩

/-- `JSON.stringify` of one record. -/
def recordToJson (r : VDRecord) : Json :=
  .obj [("name", .str r.name), ("files", .arr (r.files.map Json.str))]

/-- `JSON.stringify(this._virtualDirectories)`. -/
def recordsToJson (l : List VDRecord) : Json :=
  .arr (l.map recordToJson)

/-- Reading the entries of a record's `files` array; a non-string entry
would surface as a dynamic type error where the class uses it. -/
def jsonToFiles : List Json → Except JSError (List String)
  | [] => .ok []
  | .str s :: rest =>
    match jsonToFiles rest with
    | .ok fs => .ok (s :: fs)
    | .error e => .error e
  | _ :: _ => .error (.typeError "file entry is not a string")

/-- Reading one record object; any other shape would surface as a dynamic
type error at the class's untyped accesses (`elem.name`, `dir.files`). -/
def jsonToRecord : Json → Except JSError VDRecord
  | .obj [("name", .str n), ("files", .arr fs)] =>
    match jsonToFiles fs with
    | .ok l => .ok ⟨n, l⟩
    | .error e => .error e
  | _ => .error (.typeError "record shape mismatch")

/-- Reading a list of record objects. -/
def jsonToRecordList : List Json → Except JSError (List VDRecord)
  | [] => .ok []
  | j :: rest =>
    match jsonToRecord j, jsonToRecordList rest with
    | .ok r, .ok l => .ok (r :: l)
    | .error e, _ => .error e
    | .ok _, .error e => .error e

/-- `JSON.parse` of the sidecar content, as consumed by the class. -/
def jsonToRecords : Json → Except JSError (List VDRecord)
  | .arr js => jsonToRecordList js
  | _ => .error (.typeError "sidecar is not an array of records")

/-- The loop of `_refresh` over `this._virtualDirectories`, carrying the
entries pushed so far.  For each record it builds
`real = {name, children: [], hash: hash(name), type: 'virtualdir'}`; then
`for (let file of dir.files)` runs: on a non-empty `files` list the first
iteration throws the temporal-dead-zone `ReferenceError` (the inner
`let file` shadows the loop variable), leaving `real` un-pushed; on an
empty list the body never runs and `real` is pushed with no children. -/
def refreshGo (α : Type) : List VDRecord → List (RealDir α) → Except JSError Unit × List (RealDir α)
  | [], acc => (.ok (), acc)
  | vd :: rest, acc =>
    match vd.files with
    | [] =>
      refreshGo α rest (acc ++ [{ name := vd.name, children := [], hash := hash vd.name, type := "virtualdir" }])
    | _ :: _ => (.error (.referenceError "Cannot access 'file' before initialization"), acc)

/-- `_refresh()`: resets `this._realDirectories` to `[]` and repopulates
it; on a throw the already-pushed prefix remains. -/
def refresh {α : Type} (st : VDState α) : Except JSError Unit × VDState α :=
  let r := refreshGo α st.virtualDirectories []
  (r.1, { st with realDirectories := r.2 })

/-- `_write()`: if the record list is empty, `fs.unlinkSync(this._file)`
(which throws `ENOENT` if the file is already absent); otherwise
`fs.writeFileSync(this._file, JSON.stringify(this._virtualDirectories))`;
then `this._refresh()`. -/
def write {α : Type} (st : VDState α) : Except JSError Unit × VDState α :=
  if st.virtualDirectories.isEmpty then
    match st.fileContent with
    | none => (.error (.fsError "ENOENT: no such file or directory, unlink"), st)
    | some _ => refresh { st with fileContent := none }
  else
    refresh { st with fileContent := some (recordsToJson st.virtualDirectories) }

/-- The `for (let f of files)` loop of `add`: push `_makeRelative(f)`
for exactly the `f` with `this._directory.isScope(f)`. -/
def collectInScope {α : Type} (d : ParentDir α) : List String → List String
  | [] => []
  | f :: rest =>
    if d.isScope f then makeRelative f :: collectInScope d rest
    else collectInScope d rest

/-- `add`'s record update: `find` the first record whose name matches
case-insensitively and push the new files onto it; if none matches, push
a fresh record (so it ends up at the tail with exactly the new files). -/
def addTo : List VDRecord → String → List String → List VDRecord
  | [], name, toAdd => [⟨name, toAdd⟩]
  | r :: rest, name, toAdd =>
    if toLowerCase r.name == toLowerCase name then
      ⟨r.name, r.files ++ toAdd⟩ :: rest
    else
      r :: addTo rest name toAdd

/-- `add(name, files = [])`. -/
def add {α : Type} (st : VDState α) (nameArg : JSVal) (files : List String) :
    Except JSError Bool × VDState α :=
  match nameArg with
  | .str name =>
    let r := write { st with
      virtualDirectories := addTo st.virtualDirectories name (collectInScope st.directory files) }
    (r.1.map fun _ => true, r.2)
  | _ => (.ok false, st)

/-- `remove`'s whole-record deletion:
`this._virtualDirectories.splice(this._virtualDirectories.indexOf(dir), 1)`
removes the first case-insensitive name match (the object `find` returned). -/
def removeFirst : List VDRecord → String → List VDRecord
  | [], _ => []
  | r :: rest, name =>
    if toLowerCase r.name == toLowerCase name then rest
    else r :: removeFirst rest name

/-- `remove(name, hashes = [])`.  With a non-empty `hashes` list the
source runs `let file = dir.find((elem) => elem.hash == h)` where `dir`
is the plain record object `{name, files}`: `dir.find` is `undefined`,
so the first iteration throws `TypeError`, before any state change. -/
def remove {α : Type} (st : VDState α) (name : String) (hashes : List Int) :
    Except JSError Unit × VDState α :=
  match st.virtualDirectories.find? (fun r => toLowerCase r.name == toLowerCase name) with
  | none => (.ok (), st)
  | some _ =>
    if hashes.isEmpty then
      write { st with virtualDirectories := removeFirst st.virtualDirectories name }
    else
      (.error (.typeError "dir.find is not a function"), st)

/-- The loop of `find(obj)` over `this._realDirectories`. -/
def findGo {α : Type} : List (RealDir α) → Int → Option (RealDir α)
  | [], _ => none
  | r :: rest, h => if r.hash == h then some r else findGo rest h

/-- `find(obj)`: only when `obj.hasOwnProperty('hash')` does it scan the
derived view, returning the first entry with an equal hash; otherwise
(and on no match) it returns null. -/
def find {α : Type} (st : VDState α) (obj : FindArg) : Option (RealDir α) :=
  match obj.hash with
  | some h => findGo st.realDirectories h
  | none => none

/-- `_read()`: `lstatSync` failing (absent file) returns `false` with no
state change; otherwise `JSON.parse` the content into
`this._virtualDirectories` and `_refresh()`. -/
def read {α : Type} (st : VDState α) : Except JSError Bool × VDState α :=
  match st.fileContent with
  | none => (.ok false, st)
  | some j =>
    match jsonToRecords j with
    | .error e => (.error e, st)
    | .ok vds =>
      let r := refresh { st with virtualDirectories := vds }
      (r.1.map fun _ => true, r.2)

/-- `constructor(dir)`: store the directory, start with empty record list
and empty derived view, and `_read()` the sidecar file. -/
def construct {α : Type} (d : ParentDir α) (fileContent : Option Json) :
    Except JSError Unit × VDState α :=
  let r := read (α := α) ⟨d, [], [], fileContent⟩
  (r.1.map fun _ => (), r.2)

/-- Example parent directory with root `/r`, every reference in scope,
and a live file object (here: its path string) for every path. -/
def exDir : ParentDir String :=
  ⟨"/r", fun _ => true, fun p => some p⟩

/-- A fresh manager over `exDir` with no sidecar file. -/
def exSt : VDState String := ⟨exDir, [], [], none⟩

end ZVD

namespace ZVD

/-! ### Round-trip of the JSON codec -/

theorem jsonToFiles_map_str (fs : List String) :
    jsonToFiles (fs.map Json.str) = .ok fs := by
  induction fs with
  | nil => rfl
  | cons f rest ih => simp [jsonToFiles, ih]

theorem jsonToRecord_recordToJson (r : VDRecord) :
    jsonToRecord (recordToJson r) = .ok r := by
  simp [recordToJson, jsonToRecord, jsonToFiles_map_str]

theorem jsonToRecords_recordsToJson (l : List VDRecord) :
    jsonToRecords (recordsToJson l) = .ok l := by
  simp only [recordsToJson, jsonToRecords]
  induction l with
  | nil => rfl
  | cons r rest ih => simp [jsonToRecordList, jsonToRecord_recordToJson, ih]

/-! ### Field-preservation facts about `refresh` and `write` -/

theorem refresh_snd_virtualDirectories {α : Type} (st : VDState α) :
    ((refresh st).2).virtualDirectories = st.virtualDirectories := rfl

theorem refresh_snd_fileContent {α : Type} (st : VDState α) :
    ((refresh st).2).fileContent = st.fileContent := rfl

theorem refresh_snd_directory {α : Type} (st : VDState α) :
    ((refresh st).2).directory = st.directory := rfl

theorem write_snd_virtualDirectories {α : Type} (st : VDState α) :
    ((write st).2).virtualDirectories = st.virtualDirectories := by
  cases hv : st.virtualDirectories with
  | nil =>
    cases hf : st.fileContent with
    | none => simp [write, hv, hf]
    | some j => simp [write, hv, hf, refresh]
  | cons r rest => simp [write, hv, refresh]

theorem write_snd_fileContent_of_ne_nil {α : Type} (st : VDState α)
    (h : st.virtualDirectories ≠ []) :
    ((write st).2).fileContent = some (recordsToJson st.virtualDirectories) := by
  cases hv : st.virtualDirectories with
  | nil => exact absurd hv h
  | cons r rest => simp [write, hv, refresh]

/-- The persistence invariant of the claim: empty record list means an
absent sidecar file; a non-empty record list means the sidecar content,
parsed back, equals the in-memory record list. -/
def fileInv {α : Type} (st : VDState α) : Prop :=
  (st.virtualDirectories = [] → st.fileContent = none) ∧
  (st.virtualDirectories ≠ [] →
    ∃ j, st.fileContent = some j ∧ jsonToRecords j = .ok st.virtualDirectories)

theorem write_ok_fileInv {α : Type} (st : VDState α) (u : Unit)
    (h : (write st).1 = .ok u) : fileInv (write st).2 := by
  cases hv : st.virtualDirectories with
  | nil =>
    cases hf : st.fileContent with
    | none => simp [write, hv, hf] at h
    | some j =>
      refine ⟨fun _ => ?_, fun hne => ?_⟩
      · simp [write, hv, hf, refresh]
      · rw [write_snd_virtualDirectories] at hne
        exact absurd hv hne
  | cons r rest =>
    refine ⟨fun hnil => ?_, fun _ => ?_⟩
    · rw [write_snd_virtualDirectories, hv] at hnil
      exact absurd hnil (by simp)
    · refine ⟨recordsToJson st.virtualDirectories, ?_, ?_⟩
      · exact write_snd_fileContent_of_ne_nil st (by simp [hv])
      · rw [write_snd_virtualDirectories]
        exact jsonToRecords_recordsToJson _

end ZVD

namespace ZVD

/-- The state `add(name, files)` hands to `_write`: the record list after
the find-or-create and the in-scope pushes. -/
def addState {α : Type} (st : VDState α) (n : String) (files : List String) : VDState α :=
  { st with virtualDirectories := addTo st.virtualDirectories n (collectInScope st.directory files) }

/-- The state `remove(name, [])` hands to `_write` after the splice. -/
def removeState {α : Type} (st : VDState α) (name : String) : VDState α :=
  { st with virtualDirectories := removeFirst st.virtualDirectories name }

theorem add_str_eq {α : Type} (st : VDState α) (n : String) (files : List String) :
    add st (.str n) files =
      ((write (addState st n files)).1.map (fun _ => true), (write (addState st n files)).2) := rfl

/-- **C4**: after every mutation (`add` or `remove`) that runs to
completion (returns rather than throws), the persistence invariant holds:
an empty in-memory record list means the sidecar file is absent, and a
non-empty one means the sidecar content, parsed as JSON, equals the
in-memory record list exactly.  The invariant is established by the
constructor on a fresh directory and preserved by every completed
mutation, so it holds after every mutation along every execution. -/
theorem C4_mutations_preserve_roundtrip {α : Type} (st : VDState α) (nameArg : JSVal)
    (files : List String) (name : String) (hashes : List Int)
    (hinv : fileInv st) :
    (∀ d : ParentDir α, fileInv ((construct d none).2)) ∧
    (∀ b, (add st nameArg files).1 = .ok b → fileInv (add st nameArg files).2) ∧
    ((remove st name hashes).1 = .ok () → fileInv (remove st name hashes).2) := by
  refine ⟨fun d => ⟨fun _ => rfl, fun hne => absurd rfl hne⟩, ?_, ?_⟩
  · intro b hb
    cases nameArg with
    | str n =>
      rw [add_str_eq] at hb ⊢
      cases hw : (write (addState st n files)).1 with
      | ok u => exact write_ok_fileInv _ u hw
      | error e => rw [hw] at hb; simp [Except.map] at hb
    | num n => exact hinv
    | bool b => exact hinv
    | undef => exact hinv
  · intro hr
    cases hf : st.virtualDirectories.find? (fun r => toLowerCase r.name == toLowerCase name) with
    | none =>
      have h2 : (remove st name hashes).2 = st := by simp [remove, hf]
      rw [h2]; exact hinv
    | some d =>
      by_cases he : hashes.isEmpty
      · have h1 : (remove st name hashes).1 = (write (removeState st name)).1 := by
          simp [remove, removeState, hf, he]
        have h2 : (remove st name hashes).2 = (write (removeState st name)).2 := by
          simp [remove, removeState, hf, he]
        rw [h1] at hr
        rw [h2]
        exact write_ok_fileInv _ () hr
      · have h1 : (remove st name hashes).1 = .error (.typeError "dir.find is not a function") := by
          simp [remove, hf, he]
        rw [h1] at hr
        exact absurd hr (by simp)

/-- Witness for C4 at a concrete input: the fresh empty state satisfies
the invariant, `add "X" []` completes with `true`, and the invariant
holds afterwards. -/
theorem C4_mutations_preserve_roundtrip_witness :
    fileInv exSt ∧ (add exSt (.str "X") []).1 = .ok true ∧
      fileInv (add exSt (.str "X") []).2 := by
  have h0 : fileInv exSt := ⟨fun _ => rfl, fun hne => absurd rfl hne⟩
  exact ⟨h0, rfl,
    (C4_mutations_preserve_roundtrip exSt (.str "X") [] "X" [] h0).2.1 true rfl⟩

end ZVD

namespace ZVD

/-! ### Case-insensitive uniqueness of record names -/

/-- The case-insensitive key under which `add`/`remove` match records. -/
def lowerName (r : VDRecord) : String := toLowerCase r.name

/-- Record names are pairwise distinct under case-insensitive comparison. -/
def uniqueNames (l : List VDRecord) : Prop := (l.map lowerName).Nodup

theorem mem_map_lowerName_addTo {l : List VDRecord} {n : String} {a : List String}
    {x : String} (h : x ∈ (addTo l n a).map lowerName) :
    x ∈ l.map lowerName ∨ x = toLowerCase n := by
  induction l with
  | nil =>
    right
    simpa [addTo, lowerName] using h
  | cons r rest ih =>
    cases hb : (toLowerCase r.name == toLowerCase n) with
    | true =>
      simp only [addTo, hb, if_pos] at h
      left
      simpa [lowerName] using h
    | false =>
      simp only [addTo, hb, Bool.false_eq_true, if_neg, not_false_iff, List.map_cons,
        List.mem_cons] at h
      rcases h with h | h
      · left; simp [lowerName, h]
      · rcases ih h with h' | h'
        · left; simp [h']
        · right; exact h'

theorem uniqueNames_addTo {l : List VDRecord} (n : String) (a : List String)
    (h : uniqueNames l) : uniqueNames (addTo l n a) := by
  induction l with
  | nil => simp [addTo, uniqueNames, lowerName]
  | cons r rest ih =>
    rw [uniqueNames, List.map_cons, List.nodup_cons] at h
    cases hb : (toLowerCase r.name == toLowerCase n) with
    | true =>
      simp only [addTo, hb, if_pos]
      rw [uniqueNames, List.map_cons, List.nodup_cons]
      exact ⟨h.1, h.2⟩
    | false =>
      simp only [addTo, hb, Bool.false_eq_true, if_neg, not_false_iff]
      rw [uniqueNames, List.map_cons, List.nodup_cons]
      refine ⟨fun hx => ?_, ih h.2⟩
      rcases mem_map_lowerName_addTo hx with h' | h'
      · exact h.1 h'
      · have : toLowerCase r.name ≠ toLowerCase n := by simpa using hb
        exact this (by simpa [lowerName] using h')

theorem removeFirst_sublist (l : List VDRecord) (n : String) :
    List.Sublist (removeFirst l n) l := by
  induction l with
  | nil => simp [removeFirst]
  | cons r rest ih =>
    by_cases hb : (toLowerCase r.name == toLowerCase n) = true
    · simp only [removeFirst, hb, if_pos]
      exact List.sublist_cons_self r rest
    · simp only [removeFirst, hb, if_neg, not_false_iff]
      exact List.Sublist.cons₂ r ih

theorem uniqueNames_removeFirst {l : List VDRecord} (n : String)
    (h : uniqueNames l) : uniqueNames (removeFirst l n) :=
  h.sublist ((removeFirst_sublist l n).map lowerName)

theorem addTo_ne_nil (l : List VDRecord) (n : String) (a : List String) :
    addTo l n a ≠ [] := by
  cases l with
  | nil => simp [addTo]
  | cons r rest => simp only [addTo]; split <;> simp

theorem add_snd_virtualDirectories {α : Type} (st : VDState α) (n : String)
    (files : List String) :
    ((add st (.str n) files).2).virtualDirectories
      = addTo st.virtualDirectories n (collectInScope st.directory files) := by
  rw [add_str_eq, write_snd_virtualDirectories]
  rfl

end ZVD

namespace ZVD

/-- **C6**: case-insensitive uniqueness of record names is preserved by
every operation (`add` with any name argument, `remove`), and adding
"Notes" then "notes" creates a single record into which the second
call's files are merged. -/
theorem C6_names_unique_case_insensitive {α : Type} :
    (∀ (st : VDState α) (v : JSVal) (files : List String),
        uniqueNames st.virtualDirectories →
          uniqueNames ((add st v files).2).virtualDirectories) ∧
    (∀ (st : VDState α) (name : String) (hashes : List Int),
        uniqueNames st.virtualDirectories →
          uniqueNames ((remove st name hashes).2).virtualDirectories) ∧
    ((add (add exSt (.str "Notes") ["a1"]).2 (.str "notes") ["a2"]).2).virtualDirectories
      = [⟨"Notes", ["a1", "a2"]⟩] := by
  refine ⟨fun st v files h => ?_, fun st name hashes h => ?_, by rfl⟩
  · cases v with
    | str n =>
      rw [add_snd_virtualDirectories]
      exact uniqueNames_addTo n _ h
    | num m => exact h
    | bool b => exact h
    | undef => exact h
  · cases hf : st.virtualDirectories.find? (fun r => toLowerCase r.name == toLowerCase name) with
    | none =>
      have h2 : (remove st name hashes).2 = st := by simp [remove, hf]
      rw [h2]; exact h
    | some d =>
      by_cases he : hashes.isEmpty
      · have h2 : (remove st name hashes).2 = (write (removeState st name)).2 := by
          simp [remove, removeState, hf, he]
        rw [h2, write_snd_virtualDirectories]
        exact uniqueNames_removeFirst name h
      · have h2 : (remove st name hashes).2 = st := by simp [remove, hf, he]
        rw [h2]; exact h

/-- Witness for C6 at a concrete input: the empty record list has unique
names and they stay unique after `add "A" []`. -/
theorem C6_names_unique_case_insensitive_witness :
    uniqueNames exSt.virtualDirectories ∧
      uniqueNames ((add exSt (.str "A") []).2).virtualDirectories := by
  have h0 : uniqueNames exSt.virtualDirectories := List.nodup_nil
  exact ⟨h0, (C6_names_unique_case_insensitive (α := String)).1 exSt (.str "A") [] h0⟩

/-- **C7**: `add` with a non-string name returns `false`, does not throw,
and leaves the whole state (record list, derived view, sidecar file)
unchanged. -/
theorem C7_add_non_string_name {α : Type} (st : VDState α) (v : JSVal)
    (files : List String) (h : typeofIsString v = false) :
    add st v files = (.ok false, st) := by
  cases v with
  | str s => simp [typeofIsString] at h
  | num n => rfl
  | bool b => rfl
  | undef => rfl

/-- Witness for C7 at a concrete input: `add(42, ["a.md"])`. -/
theorem C7_add_non_string_name_witness :
    typeofIsString (.num 42) = false ∧ add exSt (.num 42) ["a.md"] = (.ok false, exSt) :=
  ⟨rfl, C7_add_non_string_name exSt (.num 42) ["a.md"] rfl⟩

/-- **C8**: constructing a manager when the sidecar file is absent is not
an error: the constructor completes with an empty record list and an
empty derived view (and the file stays absent). -/
theorem C8_construct_absent_sidecar {α : Type} (d : ParentDir α) :
    construct d none = (.ok (), ⟨d, [], [], none⟩) := rfl

theorem find?_cons_true {β : Type} (p : β → Bool) (a : β) (l : List β)
    (h : p a = true) : (a :: l).find? p = some a := by
  simp [List.find?, h]

theorem find?_cons_false {β : Type} (p : β → Bool) (a : β) (l : List β)
    (h : p a = false) : (a :: l).find? p = l.find? p := by
  simp [List.find?, h]

theorem find?_addTo {l : List VDRecord} {n : String} {R : VDRecord} (toAdd : List String)
    (h : l.find? (fun r => toLowerCase r.name == toLowerCase n) = some R) :
    (addTo l n toAdd).find? (fun r => toLowerCase r.name == toLowerCase n)
      = some ⟨R.name, R.files ++ toAdd⟩ := by
  induction l with
  | nil => simp at h
  | cons r rest ih =>
    by_cases hb : (toLowerCase r.name == toLowerCase n) = true
    · rw [find?_cons_true (fun x => toLowerCase x.name == toLowerCase n) r rest hb] at h
      have hR : R = r := by injection h with h'; exact h'.symm
      subst hR
      simp only [addTo, hb, if_pos]
      exact find?_cons_true (fun x => toLowerCase x.name == toLowerCase n)
        ⟨R.name, R.files ++ toAdd⟩ rest hb
    · have hb' : (toLowerCase r.name == toLowerCase n) = false := by
        simpa using hb
      rw [find?_cons_false (fun x => toLowerCase x.name == toLowerCase n) r rest hb'] at h
      simp only [addTo, hb', Bool.false_eq_true, if_neg, not_false_iff]
      rw [find?_cons_false (fun x => toLowerCase x.name == toLowerCase n) r (addTo rest n toAdd) hb']
      exact ih h

/-- **C9**: `add` never deduplicates: if the record matched by `name`
already stores the (stored form of the) reference `f`, and `f` is in
scope, adding it again appends it once more, so the record's files hold
it at least twice, and the persisted JSON is the serialization of that
duplicated list. -/
theorem C9_add_never_dedups {α : Type} (st : VDState α) (name f : String) (R : VDRecord)
    (h1 : st.virtualDirectories.find? (fun r => toLowerCase r.name == toLowerCase name) = some R)
    (h2 : st.directory.isScope f = true)
    (h3 : makeRelative f ∈ R.files) :
    ((add st (.str name) [f]).2).virtualDirectories.find?
        (fun r => toLowerCase r.name == toLowerCase name)
      = some ⟨R.name, R.files ++ [makeRelative f]⟩ ∧
    2 ≤ (R.files ++ [makeRelative f]).count (makeRelative f) ∧
    ((add st (.str name) [f]).2).fileContent
      = some (recordsToJson ((add st (.str name) [f]).2).virtualDirectories) := by
  have hvds : ((add st (.str name) [f]).2).virtualDirectories
      = addTo st.virtualDirectories name [makeRelative f] := by
    rw [add_snd_virtualDirectories]
    simp [collectInScope, h2]
  refine ⟨?_, ?_, ?_⟩
  · rw [hvds]
    exact find?_addTo _ h1
  · rw [List.count_append]
    have hmem : 0 < R.files.count (makeRelative f) := List.count_pos_iff.mpr h3
    have hone : List.count (makeRelative f) [makeRelative f] = 1 := by simp
    omega
  · rw [add_str_eq, write_snd_fileContent_of_ne_nil _ ?hne, write_snd_virtualDirectories]
    case hne =>
      show addTo st.virtualDirectories name (collectInScope st.directory [f]) ≠ []
      exact addTo_ne_nil _ _ _

/-- Witness for C9 at a concrete input: record "X" already stores
"a.md"; adding it again yields files ["a.md", "a.md"]. -/
theorem C9_add_never_dedups_witness :
    ([⟨"X", ["a.md"]⟩] : List VDRecord).find?
        (fun r => toLowerCase r.name == toLowerCase "X") = some ⟨"X", ["a.md"]⟩ ∧
    exDir.isScope "a.md" = true ∧ makeRelative "a.md" ∈ (["a.md"] : List String) ∧
    ((add ⟨exDir, [⟨"X", ["a.md"]⟩], [], some (recordsToJson [⟨"X", ["a.md"]⟩])⟩
        (.str "X") ["a.md"]).2).virtualDirectories.find?
        (fun r => toLowerCase r.name == toLowerCase "X")
      = some ⟨"X", ["a.md", "a.md"]⟩ := by
  refine ⟨by rfl, rfl, by decide, ?_⟩
  have h := (C9_add_never_dedups
    ⟨exDir, [⟨"X", ["a.md"]⟩], [], some (recordsToJson [⟨"X", ["a.md"]⟩])⟩
    "X" "a.md" ⟨"X", ["a.md"]⟩ (by rfl) rfl (by decide)).1
  have hmr : makeRelative "a.md" = "a.md" := rfl
  rw [hmr] at h
  exact h

theorem findGo_eq_find? {α : Type} (l : List (RealDir α)) (h : Int) :
    findGo l h = l.find? (fun r => r.hash == h) := by
  induction l with
  | nil => rfl
  | cons r rest ih =>
    by_cases hb : (r.hash == h) = true
    · rw [find?_cons_true (fun x => x.hash == h) r rest hb]
      simp [findGo, hb]
    · have hb' : (r.hash == h) = false := by simpa using hb
      rw [find?_cons_false (fun x => x.hash == h) r rest hb']
      simp only [findGo]
      rw [if_neg (by simp [hb'])]
      exact ih

/-- **C10**: `find` matches only by the `hash` field: an argument without
an own `hash` property yields `null` whatever the derived view and
whatever `path`/`name` it carries; with a `hash`, the first derived-view
entry with an equal hash is returned. -/
theorem C10_find_matches_only_hash {α : Type} :
    (∀ (st : VDState α) (p n : Option String), find st ⟨none, p, n⟩ = none) ∧
    (∀ (st : VDState α) (h : Int) (p n : Option String),
        find st ⟨some h, p, n⟩ = st.realDirectories.find? (fun r => r.hash == h)) :=
  ⟨fun _ _ _ => rfl, fun st h _ _ => findGo_eq_find? st.realDirectories h⟩

end ZVD

namespace ZVD

/-- **C1**: evaluating the code at the failing input.  With a record "X"
present (created by `add("X")`), `remove("X", [42])` does not remove the
listed reference: `remove` calls `dir.find`/`dir.splice` on the record
object `{name, files}` itself, so it throws
`TypeError: dir.find is not a function`, leaving the state (records,
derived view, sidecar file) untouched and persisting nothing. -/
theorem C1_remove_refs_throws_typeError :
    remove (add exSt (.str "X") []).2 "X" [42]
      = (.error (.typeError "dir.find is not a function"), (add exSt (.str "X") []).2) := rfl

/-- **C2**: evaluating the code at the failing input.  With every
reference in scope and `findFile` resolving every path,
`add("X", ["a.md"])` throws the temporal-dead-zone `ReferenceError`
inside `_refresh` (the inner `let file` shadows the loop variable), and
the derived view is left empty, so `find({hash: hash("X")})` returns
null rather than a view containing the file as a child. -/
theorem C2_add_then_find_throws_referenceError :
    (add exSt (.str "X") ["a.md"]).1
        = .error (.referenceError "Cannot access 'file' before initialization") ∧
    find (add exSt (.str "X") ["a.md"]).2 ⟨some (hash "X"), none, none⟩ = none :=
  ⟨rfl, rfl⟩

/-- **C3**: evaluating the code at the failing input.  The owning
directory's root is "/r" and "/r/a.md" is in scope, yet
`add("X", ["/r/a.md"])` stores the reference unchanged instead of the
root-relative "/a.md": `_makeRelative` tests the path against
`this._root`, which is never assigned (`undefined`, coerced to the
string "undefined"), so the root prefix is never stripped. -/
theorem C3_add_stores_path_unstripped :
    exDir.path = "/r" ∧ exDir.isScope "/r/a.md" = true ∧
    makeRelative "/r/a.md" = "/r/a.md" ∧
    ((add exSt (.str "X") ["/r/a.md"]).2).virtualDirectories = [⟨"X", ["/r/a.md"]⟩] :=
  ⟨rfl, rfl, rfl, rfl⟩

/-- **C5**: evaluating the code at the failing input.  One instance
persists the record list `[{name: "X", files: ["a.md"]}]` (the write in
`add` happens before `_refresh` throws), but a fresh instance constructed
over the same parent directory and that sidecar file throws the
temporal-dead-zone `ReferenceError` in the constructor's `_refresh`, so
it produces no derived view at all. -/
theorem C5_reload_of_persisted_records_throws :
    ((add exSt (.str "X") ["a.md"]).2).fileContent
        = some (recordsToJson [⟨"X", ["a.md"]⟩]) ∧
    (construct exDir ((add exSt (.str "X") ["a.md"]).2).fileContent).1
        = .error (.referenceError "Cannot access 'file' before initialization") :=
  ⟨rfl, rfl⟩

end ZVD
